import Mathlib

/-!
Verification of the AssetsBridge manifest / reconciliation engine.

The definitions below are shallow embeddings of the C++ source
(`BridgeManager.cpp` glTF variant, `AssetsBridgeTools.cpp`).  FString
semantics are modelled explicitly: UE's `RemoveFromStart`, `StartsWith`
and `operator==` default to case-insensitive comparison, while
`FString::Equals` defaults to case-sensitive comparison; both appear in
the source and are modelled separately below.  Paths are lists of
characters wrapped into `String` at the interface.
-/

namespace AssetsBridge

/-- Case-insensitive character comparison, as used by UE string ops that
default to `ESearchCase::IgnoreCase`. -/
def charEqCI (a b : Char) : Bool := a.toLower == b.toLower

/-- Case-insensitive "does `pre` occur at the start of `s`" (FString::StartsWith
with its default IgnoreCase mode). -/
def startsWithCI : List Char → List Char → Bool
  | [], _ => true
  | _ :: _, [] => false
  | a :: as, b :: bs => charEqCI a b && startsWithCI as bs

/-- Case-insensitive string equality (UE `FString::operator==`). -/
def strEqCI : List Char → List Char → Bool
  | [], [] => true
  | a :: as, b :: bs => charEqCI a b && strEqCI as bs
  | _, _ => false

/-- `FString::RemoveFromStart` (default IgnoreCase): strips `pre` when it is a
case-insensitive prefix, otherwise leaves the string unchanged. -/
def removeFromStartCI (pre s : List Char) : List Char :=
  if startsWithCI pre s then s.drop pre.length else s

/-- Path segments: split on `/` culling empty segments, as
`ParseIntoArray(PathSegments, TEXT("/"), true)` does. -/
def splitSegs (s : List Char) : List (List Char) :=
  (s.splitOn '/').filter (· ≠ [])

/-- The "ensure leading slash" step of the import-path normalization. -/
def ensureLeadingSlash (s : List Char) : List Char :=
  if startsWithCI ['/'] s then s else '/' :: s

/-- Leading doubled segment test: the first two path segments compare equal
under UE's case-insensitive `FString::operator==`. -/
def leadingDoubledCI (s : List Char) : Bool :=
  match splitSegs s with
  | a :: b :: _ => strEqCI a b
  | _ => false

/-- The doubled-segment collapse step of `UBridgeManager::GenerateImport`:
when the first two segments are equal, the first is removed and the path is
rebuilt as `/` + join; otherwise the path is unchanged.  Only one collapse
is performed per call. -/
def collapseLeadingDoubled (s : List Char) : List Char :=
  match splitSegs s with
  | a :: b :: rest =>
    if strEqCI a b then '/' :: List.intercalate ['/'] (b :: rest) else s
  | _ => s

/-- Core of the import-path normalization in `UBridgeManager::GenerateImport`
(`BridgeManager.cpp`, glTF variant): strip `/Game`, `Game`, `/Content`,
`Content` from the start (each at most once, case-insensitively), ensure a
leading slash, then collapse a leading doubled segment. -/
def normCore (s : List Char) : List Char :=
  collapseLeadingDoubled (ensureLeadingSlash
    (removeFromStartCI "Content".data
      (removeFromStartCI "/Content".data
        (removeFromStartCI "Game".data
          (removeFromStartCI "/Game".data s)))))

/-- String-level wrapper for the import-path normalization. -/
def normalizeImportPath (s : String) : String := ⟨normCore s.data⟩

end AssetsBridge

namespace AssetsBridge

lemma charEqCI_refl (a : Char) : charEqCI a a = true := by
  simp [charEqCI]

lemma startsWithCI_append_self (pre s : List Char) :
    startsWithCI pre (pre ++ s) = true := by
  induction pre with
  | nil => simp [startsWithCI]
  | cons a as ih => simp [startsWithCI, charEqCI_refl, ih]

lemma removeFromStartCI_append (pre s : List Char) :
    removeFromStartCI pre (pre ++ s) = s := by
  simp [removeFromStartCI, startsWithCI_append_self, List.drop_left]

lemma removeFromStartCI_of_neg (pre s : List Char)
    (h : startsWithCI pre s = false) : removeFromStartCI pre s = s := by
  simp [removeFromStartCI, h]

/-- If the head character of `s` is case-insensitively a slash, then a
pattern starting with a letter is not a CI prefix of `s`. -/
lemma startsWithCI_letter_of_slash_head (a : Char) (pat : List Char)
    (c : Char) (t : List Char)
    (hslash : charEqCI '/' c = true) (hne : a.toLower ≠ '/') :
    startsWithCI (a :: pat) (c :: t) = false := by
  have hc : c.toLower = '/' := by
    have h' : Char.toLower '/' = c.toLower :=
      eq_of_beq (by simpa [charEqCI] using hslash)
    rw [show Char.toLower '/' = '/' from by decide] at h'
    exact h'.symm
  simp only [startsWithCI, Bool.and_eq_false_iff]
  left
  simp only [charEqCI, hc, beq_eq_false_iff_ne, ne_eq]
  exact hne

lemma ensureLeadingSlash_head (s : List Char) :
    ∃ c t, ensureLeadingSlash s = c :: t ∧ charEqCI '/' c = true := by
  unfold ensureLeadingSlash
  by_cases h : startsWithCI ['/'] s = true
  · rw [if_pos h]
    cases s with
    | nil => simp [startsWithCI] at h
    | cons c t =>
      refine ⟨c, t, rfl, ?_⟩
      simpa [startsWithCI] using h
  · rw [if_neg h]
    exact ⟨'/', s, rfl, charEqCI_refl '/'⟩

lemma collapseLeadingDoubled_head (s : List Char)
    (h : ∃ c t, s = c :: t ∧ charEqCI '/' c = true) :
    ∃ c t, collapseLeadingDoubled s = c :: t ∧ charEqCI '/' c = true := by
  unfold collapseLeadingDoubled
  cases hsegs : splitSegs s with
  | nil => exact h
  | cons a tl =>
    cases tl with
    | nil => exact h
    | cons b rest =>
      show ∃ c t,
        (if strEqCI a b then '/' :: List.intercalate ['/'] (b :: rest) else s)
          = c :: t ∧ charEqCI '/' c = true
      by_cases hab : strEqCI a b = true
      · rw [if_pos hab]
        exact ⟨'/', _, rfl, charEqCI_refl '/'⟩
      · rw [if_neg hab]
        exact h

lemma collapseLeadingDoubled_of_not_doubled (s : List Char)
    (h3 : leadingDoubledCI s = false) :
    collapseLeadingDoubled s = s := by
  unfold collapseLeadingDoubled
  unfold leadingDoubledCI at h3
  cases hsegs : splitSegs s with
  | nil => rfl
  | cons a tl =>
    cases tl with
    | nil => rfl
    | cons b rest =>
      rw [hsegs] at h3
      have h3' : strEqCI a b = false := h3
      show (if strEqCI a b then '/' :: List.intercalate ['/'] (b :: rest) else s) = s
      rw [if_neg (by simp [h3'])]

/-- The normalization core always returns a string whose first character is
(case-insensitively) a slash. -/
lemma normCore_head (s : List Char) :
    ∃ c t, normCore s = c :: t ∧ charEqCI '/' c = true := by
  unfold normCore
  exact collapseLeadingDoubled_head _ (ensureLeadingSlash_head _)

/-- Key lemma: on a string that already starts with a (CI) slash, does not
CI-start with `/Game` or `/Content`, and has no leading doubled segment,
the normalization core is the identity. -/
lemma normCore_fixed (q : List Char)
    (hhead : ∃ c t, q = c :: t ∧ charEqCI '/' c = true)
    (h1 : startsWithCI "/Game".data q = false)
    (h2 : startsWithCI "/Content".data q = false)
    (h3 : leadingDoubledCI q = false) :
    normCore q = q := by
  obtain ⟨c, t, rfl, hslash⟩ := hhead
  have e1 : removeFromStartCI "/Game".data (c :: t) = c :: t :=
    removeFromStartCI_of_neg _ _ h1
  have e2 : removeFromStartCI "Game".data (c :: t) = c :: t := by
    refine removeFromStartCI_of_neg _ _ ?_
    exact startsWithCI_letter_of_slash_head 'G' _ c t hslash (by decide)
  have e3 : removeFromStartCI "/Content".data (c :: t) = c :: t :=
    removeFromStartCI_of_neg _ _ h2
  have e4 : removeFromStartCI "Content".data (c :: t) = c :: t := by
    refine removeFromStartCI_of_neg _ _ ?_
    exact startsWithCI_letter_of_slash_head 'C' _ c t hslash (by decide)
  have e5 : ensureLeadingSlash (c :: t) = c :: t := by
    unfold ensureLeadingSlash
    simp [startsWithCI, hslash]
  unfold normCore
  rw [e1, e2, e3, e4, e5]
  exact collapseLeadingDoubled_of_not_doubled _ h3

lemma startsWithCI_false_of_head (a : Char) (pat : List Char) (c : Char)
    (t : List Char) (h : charEqCI a c = false) :
    startsWithCI (a :: pat) (c :: t) = false := by
  simp [startsWithCI, h]

lemma startsWithCI_false_of_second (a b : Char) (pat : List Char)
    (x y : Char) (t : List Char) (h : charEqCI b y = false) :
    startsWithCI (a :: b :: pat) (x :: y :: t) = false := by
  simp [startsWithCI, h]

/-- C1, claim as stated, refuted: the import-path normalization of
`GenerateImport` is not idempotent.  `/A/A/A` normalizes to `/A/A` (only the
first doubled pair is collapsed), and a second application collapses again
to `/A`. -/
theorem normalizeImportPath_not_idempotent :
    normalizeImportPath (normalizeImportPath "/A/A/A") ≠
      normalizeImportPath "/A/A/A" := by decide

/-- C1 (amended): the import-path normalization is idempotent on every path
whose normalized form does not case-insensitively start with `/Game` or
`/Content` and whose normalized form does not start with a doubled leading
segment.  (The unamended claim fails exactly when one of these conditions
fails: a second application strips or collapses further.) -/
theorem normalizeImportPath_idempotent_on_stable (p : String)
    (h1 : startsWithCI "/Game".data (normalizeImportPath p).data = false)
    (h2 : startsWithCI "/Content".data (normalizeImportPath p).data = false)
    (h3 : leadingDoubledCI (normalizeImportPath p).data = false) :
    normalizeImportPath (normalizeImportPath p) = normalizeImportPath p := by
  apply congrArg String.mk
  exact normCore_fixed _ (normCore_head p.data) h1 h2 h3

/-- Witness for the amended C1 at the concrete path `/Assets/Hero`. -/
theorem normalizeImportPath_idempotent_on_stable_witness :
    normalizeImportPath (normalizeImportPath "/Assets/Hero") =
      normalizeImportPath "/Assets/Hero" :=
  normalizeImportPath_idempotent_on_stable "/Assets/Hero"
    (by decide) (by decide) (by decide)

/-- C8: the doubled-segment collapse removes a leading doubled pair
(`/Assets/Assets/Hero` becomes `/Assets/Hero`) and leaves a repeat deeper in
the path untouched (`/Foo/Bar/Foo` is unchanged). -/
theorem doubled_segment_collapse_examples :
    normalizeImportPath "/Assets/Assets/Hero" = "/Assets/Hero" ∧
    normalizeImportPath "/Foo/Bar/Foo" = "/Foo/Bar/Foo" := by decide

/-- C9: content-root prefix stripping is a plain string-prefix removal, not
segment-aware.  For a path whose first segment strictly extends `Game` or
`Content` (next character not a separator, remainder not itself starting
with another strippable root or a doubled segment), normalization removes
the prefix substring and yields a different, corrupted path instead of
leaving the path unchanged. -/
theorem prefix_strip_not_segment_aware (pre : List Char)
    (hpre : pre = "Game".data ∨ pre = "Content".data)
    (c : Char) (t : List Char)
    (hc : charEqCI '/' c = false)
    (hg : startsWithCI "Game".data (c :: t) = false)
    (hcon : startsWithCI "Content".data (c :: t) = false)
    (hdb : leadingDoubledCI ('/' :: c :: t) = false) :
    normalizeImportPath ⟨'/' :: (pre ++ c :: t)⟩ = ⟨'/' :: c :: t⟩ ∧
      (⟨'/' :: c :: t⟩ : String) ≠ ⟨'/' :: (pre ++ c :: t)⟩ := by
  constructor
  · apply congrArg String.mk
    show normCore ('/' :: (pre ++ c :: t)) = '/' :: c :: t
    have e5 : ensureLeadingSlash (c :: t) = '/' :: c :: t := by
      unfold ensureLeadingSlash
      rw [if_neg (by simp [startsWithCI, hc])]
    have e6 := collapseLeadingDoubled_of_not_doubled _ hdb
    rcases hpre with rfl | rfl
    · unfold normCore
      rw [show ('/' :: ("Game".data ++ c :: t)) = "/Game".data ++ (c :: t)
        from rfl]
      rw [removeFromStartCI_append]
      rw [removeFromStartCI_of_neg _ _ hg]
      rw [removeFromStartCI_of_neg _ _
        (startsWithCI_false_of_head '/' _ c t hc)]
      rw [removeFromStartCI_of_neg _ _ hcon]
      rw [e5, e6]
    · unfold normCore
      have s1 : startsWithCI "/Game".data
          ('/' :: ("Content".data ++ c :: t)) = false :=
        startsWithCI_false_of_second '/' 'G' _ '/' 'C' _ (by decide)
      have s2 : startsWithCI "Game".data
          ('/' :: ("Content".data ++ c :: t)) = false :=
        startsWithCI_false_of_head 'G' _ '/' _ (by decide)
      rw [removeFromStartCI_of_neg _ _ s1]
      rw [removeFromStartCI_of_neg _ _ s2]
      rw [show ('/' :: ("Content".data ++ c :: t)) = "/Content".data ++ (c :: t)
        from rfl]
      rw [removeFromStartCI_append]
      rw [removeFromStartCI_of_neg _ _ hcon]
      rw [e5, e6]
  · intro h
    injection h with h'
    injection h' with _ h''
    have hlen := congrArg List.length h''
    rw [List.length_append] at hlen
    rcases hpre with rfl | rfl
    · rw [show ("Game".data : List Char) = ['G', 'a', 'm', 'e'] from rfl]
        at hlen
      simp only [List.length_cons, List.length_nil] at hlen
      omega
    · rw [show ("Content".data : List Char)
        = ['C', 'o', 'n', 't', 'e', 'n', 't'] from rfl] at hlen
      simp only [List.length_cons, List.length_nil] at hlen
      omega

/-- Witness for C9 at the concrete path `/Gameplay/Heroes`, which the
normalization corrupts to `/play/Heroes`. -/
theorem prefix_strip_not_segment_aware_witness :
    normalizeImportPath "/Gameplay/Heroes" = "/play/Heroes" := by
  have h := (prefix_strip_not_segment_aware "Game".data (Or.inl rfl)
    'p' "lay/Heroes".data (by decide) (by decide) (by decide) (by decide)).1
  have e1 : (⟨'/' :: ("Game".data ++ 'p' :: "lay/Heroes".data)⟩ : String)
      = "/Gameplay/Heroes" := by decide
  have e2 : (⟨'/' :: 'p' :: "lay/Heroes".data⟩ : String)
      = "/play/Heroes" := by decide
  rw [← e1, ← e2]
  exact h

end AssetsBridge

namespace AssetsBridge

/-!
Data model.  `FWorldData`, `FMaterialSlot`, `FMaterialChangeSet`,
`FExportAsset` and `FBridgeExport` are the USTRUCTs used by the source
(their field usage is visible throughout `BridgeManager.cpp` and
`AssetsBridgeTools.cpp`).  `ABObject` stands for a resolved `UObject*`:
an identity plus its `GetPathName()` and the introspection data the source
reads from it.  Transform coordinates are abstracted to integer triples;
no claim computes on them.
-/

/-- World placement captured from an actor (FWorldData). -/
structure WorldData where
  location : Int × Int × Int
  rotation : Int × Int × Int
  scale : Int × Int × Int
deriving DecidableEq

/-- One material slot as read from a mesh (an FStaticMaterial or
FSkeletalMaterial): its slot name and the material asset's path when the
material interface is non-null. -/
structure SrcMaterial where
  slotName : String
  matPath : Option String
deriving DecidableEq

/-- The engine-side shape of a resolved object: what the casts in
`GetExportInfo` / `GenerateExport` see.  A skeletal mesh carries a skeleton
path (when `GetSkeleton()` is non-null) and its morph target array, whose
entries can in principle be null pointers (the source null-checks them). -/
inductive SrcKind where
  | staticMesh (mats : List SrcMaterial)
  | skeletalMesh (skeleton : Option String) (morphs : List (Option String))
      (mats : List SrcMaterial)
  | other
deriving DecidableEq

/-- A resolved engine object reference (`UObject*`): identity, full path
name, and introspection data. -/
structure ABObject where
  objId : Nat
  pathName : String
  objKind : SrcKind
deriving DecidableEq

/-- FMaterialSlot. -/
structure MaterialSlot where
  idx : Nat
  name : String := ""
  internalPath : String := ""
  originalIdx : Nat := 0
deriving DecidableEq

/-- FMaterialChangeSet. -/
structure MaterialChangeset where
  added : List MaterialSlot := []
  removed : List MaterialSlot := []
  unchanged : List MaterialSlot := []
deriving DecidableEq

/-- FExportAsset: one manifest record. -/
structure ExportAsset where
  modelPtr : Option ABObject := none
  model : String := ""
  shortName : String := ""
  internalPath : String := ""
  exportLocation : String := ""
  relativeExportPath : String := ""
  stringType : String := ""
  skeleton : String := ""
  morphTargets : List String := []
  objectMaterials : List MaterialSlot := []
  materialChangeset : MaterialChangeset := {}
  worldData : Option WorldData := none
  objectID : String := ""
deriving DecidableEq

/-- FBridgeExport: the manifest. -/
structure BridgeExport where
  operation : String := ""
  objects : List ExportAsset := []
deriving DecidableEq

/-- Split a character list at the last occurrence of `c`, returning the
parts before and after it; `none` when `c` does not occur. -/
def splitAtLast (c : Char) : List Char → Option (List Char × List Char)
  | [] => none
  | x :: xs =>
    match splitAtLast c xs with
    | some (b, a) => some (x :: b, a)
    | none => if x = c then some ([], xs) else none

/-- Split a character list at the first occurrence of `c`. -/
def splitAtFirst (c : Char) : List Char → Option (List Char × List Char)
  | [] => none
  | x :: xs =>
    if x = c then some ([], xs)
    else
      match splitAtFirst c xs with
      | some (b, a) => some (x :: b, a)
      | none => none

/-- FPaths::Split: directory part (before the last slash), base filename,
and extension (after the last dot of the filename). -/
def pathsSplit (s : List Char) : List Char × List Char × List Char :=
  let (dir, file) :=
    match splitAtLast '/' s with
    | some (b, a) => (b, a)
    | none => ([], s)
  match splitAtLast '.' file with
  | some (b, e) => (dir, b, e)
  | none => (dir, file, [])

/-- FPaths::GetPath of a string path: the part before the last slash,
empty when there is no slash. -/
def pathDirname (s : String) : String :=
  match splitAtLast '/' s.data with
  | some (b, _) => ⟨b⟩
  | none => ""

/-- Fuel-driven core of `FString::Replace(pat, "")` with the UE default
IgnoreCase mode: every case-insensitive occurrence of `pat` is removed,
scanning left to right.  Fuel is the length of the scanned string, which
bounds the number of steps. -/
def removeAllCIAux (pat : List Char) : Nat → List Char → List Char
  | _, [] => []
  | 0, s => s
  | fuel + 1, x :: xs =>
    if startsWithCI pat (x :: xs) && !pat.isEmpty then
      removeAllCIAux pat fuel ((x :: xs).drop pat.length)
    else
      x :: removeAllCIAux pat fuel xs

/-- `FString::Replace(pat, TEXT(""))` (default IgnoreCase). -/
def removeAllCI (pat s : List Char) : List Char :=
  removeAllCIAux pat s.length s

/-- `UAssetsBridgeTools::GetPathWithoutExt`: `FString::Split` at the first
dot returns the left part; when there is no dot the out-parameter is left
empty, so the function returns the empty string. -/
def getPathWithoutExt (s : List Char) : List Char :=
  match splitAtFirst '.' s with
  | some (b, _) => b
  | none => []

/-- FPaths::Combine of two fragments (separator handling simplified to a
single slash; no claim depends on separator normalization). -/
def pathCombine (a b : List Char) : List Char := a ++ '/' :: b

/-- Morph-name capture in `UAssetsBridgeTools::GetExportInfo`: each
non-null morph target contributes its name, in array order. -/
def captureMorphNames (morphs : List (Option String)) : List String :=
  morphs.filterMap id

/-- Material capture loop of `GetExportInfo`: slot index is the loop index,
the internal path is the material path without extension (empty for a null
material interface). -/
def captureMaterials (mats : List SrcMaterial) : List MaterialSlot :=
  mats.enum.map (fun p =>
    { idx := p.1
      name := p.2.slotName
      internalPath :=
        match p.2.matPath with
        | some mp => ⟨getPathWithoutExt mp.data⟩
        | none => "" })

/-- `UAssetsBridgeTools::GetExportInfo`: builds the export record for one
resolved object.  `ModelPtr` is the resolved object itself; the relative
content path is the directory part of the object path with every
(case-insensitive) occurrence of `/Game` removed (`FString::Replace`). -/
def getExportInfo (exportRoot : String) (a : ABObject) : ExportAsset :=
  let ps := pathsSplit a.pathName.data
  let relativeContentPath := removeAllCI "/Game".data ps.1
  let fileName := ps.2.1 ++ ".glb".data
  let exportLoc := pathCombine (pathCombine exportRoot.data relativeContentPath) fileName
  let base : ExportAsset :=
    { modelPtr := some a
      model := a.pathName
      shortName := ⟨ps.2.1⟩
      internalPath := ⟨relativeContentPath⟩
      exportLocation := ⟨exportLoc⟩
      relativeExportPath := ⟨relativeContentPath⟩ }
  match a.objKind with
  | .staticMesh mats =>
    { base with stringType := "StaticMesh", objectMaterials := captureMaterials mats }
  | .skeletalMesh skel morphs mats =>
    { base with
      stringType := "SkeletalMesh"
      skeleton := skel.getD ""
      morphTargets := captureMorphNames morphs
      objectMaterials := captureMaterials mats }
  | .other => { base with stringType := "Unknown" }

/-- `UBridgeManager::HasMatchingExport`: an incoming asset is already
represented when some record's non-null `ModelPtr` has a path name equal
(`FString::Equals`, case-sensitive) to the incoming object's path name. -/
def hasMatchingExport (assets : List ExportAsset) (inAsset : ABObject) : Bool :=
  assets.any (fun ex =>
    match ex.modelPtr with
    | some o => o.pathName == inAsset.pathName
    | none => false)

/-- One world-selection entry of `StartExport`: the resolved asset plus,
when the selected world object casts to an actor, the actor's name and
captured transform. -/
structure WorldSel where
  objectAsset : ABObject
  actor : Option (String × WorldData)
deriving DecidableEq

/-- The collection phase of `UBridgeManager::StartExport`: fails when both
selections are empty; world selections produce records with world data and
the actor name as ObjectID; a content-browser selection is skipped when
`HasMatchingExport` already finds its path among the collected records. -/
def startExportCollect (exportRoot : String) (worldSel : List WorldSel)
    (contentSel : List ABObject) : Option (List ExportAsset) :=
  if worldSel.length = 0 ∧ contentSel.length = 0 then none
  else
    let fromWorld := worldSel.map (fun w =>
      let e := getExportInfo exportRoot w.objectAsset
      match w.actor with
      | some (nm, wd) => { e with worldData := some wd, objectID := nm }
      | none => e)
    some (contentSel.foldl (fun acc ca =>
      if hasMatchingExport acc ca then acc
      else acc ++ [getExportInfo exportRoot ca]) fromWorld)

lemma getExportInfo_modelPtr (root : String) (a : ABObject) :
    (getExportInfo root a).modelPtr = some a := by
  obtain ⟨i, p, k⟩ := a
  cases k <;> rfl

/-- C2, claim as stated, refuted: the "already represented" test of the
export collector is a path-string comparison, not an identity comparison
of the resolved objects.  Two distinct objects with equal path names are
deduplicated to one record. -/
theorem collector_dedup_not_identity :
    (startExportCollect "/bridge"
        [⟨⟨1, "/Game/X.X", .staticMesh []⟩,
          some ("Actor1", ⟨(0, 0, 0), (0, 0, 0), (1, 1, 1)⟩)⟩]
        [⟨2, "/Game/X.X", .staticMesh []⟩]).map List.length = some 1 ∧
      (⟨1, "/Game/X.X", .staticMesh []⟩ : ABObject) ≠
        ⟨2, "/Game/X.X", .staticMesh []⟩ := by
  constructor
  · rfl
  · decide

/-- C2 (amended): when a world-selected instance and a content-browser
selection resolve to objects with the same path name (which is what
`HasMatchingExport` compares; identical objects in particular), the
collector produces exactly one record, with the world transform populated
and the actor's name as ObjectID. -/
theorem collector_dedup_by_path (root : String) (w : ABObject)
    (act : String × WorldData) (l : ABObject)
    (hpath : w.pathName = l.pathName) :
    ∃ e, startExportCollect root [⟨w, some act⟩] [l] = some [e] ∧
      e.modelPtr = some w ∧ e.worldData = some act.2 ∧ e.objectID = act.1 := by
  obtain ⟨nm, wd⟩ := act
  refine ⟨{ getExportInfo root w with worldData := some wd, objectID := nm },
    ?_, getExportInfo_modelPtr root w, rfl, rfl⟩
  unfold startExportCollect
  rw [if_neg (by simp)]
  simp only [List.map, List.foldl]
  have hm : hasMatchingExport
      [{ getExportInfo root w with worldData := some wd, objectID := nm }] l
        = true := by
    unfold hasMatchingExport
    simp only [List.any_cons, List.any_nil, Bool.or_false]
    rw [getExportInfo_modelPtr]
    show (w.pathName == l.pathName) = true
    rw [hpath]
    exact beq_self_eq_true _
  rw [hm]
  rfl

/-- Witness for the amended C2: a world instance and a library selection of
the very same object produce one record with the transform populated. -/
theorem collector_dedup_by_path_witness :
    ∃ e, startExportCollect "/bridge"
        [⟨⟨7, "/Game/Hero.Hero", .staticMesh []⟩,
          some ("HeroActor", ⟨(1, 2, 3), (0, 0, 0), (1, 1, 1)⟩)⟩]
        [⟨7, "/Game/Hero.Hero", .staticMesh []⟩] = some [e] ∧
      e.modelPtr = some ⟨7, "/Game/Hero.Hero", .staticMesh []⟩ ∧
      e.worldData = some ⟨(1, 2, 3), (0, 0, 0), (1, 1, 1)⟩ ∧
      e.objectID = "HeroActor" :=
  collector_dedup_by_path "/bridge" ⟨7, "/Game/Hero.Hero", .staticMesh []⟩
    ("HeroActor", ⟨(1, 2, 3), (0, 0, 0), (1, 1, 1)⟩)
    ⟨7, "/Game/Hero.Hero", .staticMesh []⟩ rfl

end AssetsBridge

namespace AssetsBridge

/-!
The export pass (`UBridgeManager::GenerateExport`, glTF variant) and
the import pass (`UBridgeManager::GenerateImport`).  Engine effects are
abstracted into environments: directory existence/creation, the export
task outcome, the import task outcome and material loading.
-/

/-- Engine environment of the export pass. -/
structure ExportEnv where
  dirExists : String → Bool
  makeDirOk : String → Bool
  runExportOk : ExportAsset → Bool
  writeManifestOk : Bool

/-- Whether the record's model pointer casts to a static or skeletal mesh:
only then does `GenerateExport` build an export task for it. -/
def castsToMesh (e : ExportAsset) : Bool :=
  match e.modelPtr with
  | some o =>
    match o.objKind with
    | .staticMesh _ => true
    | .skeletalMesh _ _ _ => true
    | .other => false
  | none => false

/-- A record is added to the outgoing manifest iff it casts to a mesh and
its export task succeeds (`bDidExport`). -/
def wouldExport (env : ExportEnv) (e : ExportAsset) : Bool :=
  castsToMesh e && env.runExportOk e

/-- Result of the export loop: which records the loop body ran on, which
were added to the manifest, and whether the loop ran to completion (false
means the directory-creation early return fired). -/
structure ExportLoopOut where
  processed : List ExportAsset
  objects : List ExportAsset
  completed : Bool
deriving DecidableEq

/-- The per-record loop of `GenerateExport`: a missing destination
directory that cannot be created returns immediately; a failed export task
merely skips adding the record to the manifest and continues. -/
def generateExportLoop (env : ExportEnv) : List ExportAsset → ExportLoopOut
  | [] => ⟨[], [], true⟩
  | item :: rest =>
    if !env.dirExists (pathDirname item.exportLocation) &&
        !env.makeDirOk (pathDirname item.exportLocation) then
      ⟨[item], [], false⟩
    else
      let out := generateExportLoop env rest
      ⟨item :: out.processed,
        if wouldExport env item then item :: out.objects else out.objects,
        out.completed⟩

/-- Outcome of one whole export pass. -/
structure ExportOutcome where
  processed : List ExportAsset
  manifest : Option BridgeExport
  ok : Bool
deriving DecidableEq

/-- `GenerateExport`: run the loop; when it completes, write the manifest
(`Operation = "UnrealExport"`) through `WriteBridgeExportFile`. -/
def generateExport (env : ExportEnv) (items : List ExportAsset) : ExportOutcome :=
  let out := generateExportLoop env items
  if out.completed then
    ⟨out.processed, some ⟨"UnrealExport", out.objects⟩, env.writeManifestOk⟩
  else
    ⟨out.processed, none, false⟩

/-- Original-name extraction at the top of the `GenerateImport` loop: taken
from the `Model` path between the last slash and the first dot after it,
falling back to `ShortName`. -/
def extractOriginalName (shortName model : String) : String :=
  if model.data = [] then shortName
  else
    match splitAtLast '/' model.data with
    | none => shortName
    | some (_, afterSlash) =>
      match splitAtFirst '.' afterSlash with
      | none => shortName
      | some (beforeDot, _) => ⟨beforeDot⟩

/-- The destination package name computed by `GenerateImport`:
`/Game` + normalized internal path + `/` + original name.
(`SanitizePackageName` is engine-side and modelled as the identity.) -/
def importPackageNameOf (item : ExportAsset) : String :=
  ⟨"/Game".data ++ (normalizeImportPath item.internalPath).data
    ++ '/' :: (extractOriginalName item.shortName item.model).data⟩

/-- The object produced by one import task, as the post-import code sees
it: its cast (static/skeletal/other), its morph target array (name or null
per entry) and its material slot assignments. -/
inductive ImportedAsset where
  | staticMesh (mats : List (Option String))
  | skeletalMesh (morphs : List (Option String)) (mats : List (Option String))
  | other
deriving DecidableEq

/-- The morph-rename loop of `GenerateImport`: the i-th recorded name is
applied to the i-th morph target for `i < min(recorded, imported)`; null
morph entries are skipped; entries beyond the recorded names keep
their imported names. -/
def restoreMorphNames : List String → List (Option String) → List (Option String)
  | _, [] => []
  | [], ms => ms
  | r :: rs, m :: ms =>
    (match m with
      | some _ => some r
      | none => none) :: restoreMorphNames rs ms

/-- The morph-restore step of `GenerateImport`: runs only when the record's
`StringType` equals `SkeletalMesh` (UE `==`, case-insensitive), the
recorded morph list is non-empty, and the imported object casts to
a skeletal mesh. -/
def applyMorphRestore (item : ExportAsset) (asset : ImportedAsset) : ImportedAsset :=
  match asset with
  | .skeletalMesh morphs mats =>
    if strEqCI item.stringType.data "SkeletalMesh".data &&
        !item.morphTargets.isEmpty then
      .skeletalMesh (restoreMorphNames item.morphTargets morphs) mats
    else asset
  | _ => asset

/-- Material-path fix-up in the unchanged-slot restore loop: paths not
starting (case-insensitively) with `/Game` or `/Engine` get `/Game`
prepended. -/
def fixupMaterialPath (p : String) : String :=
  if !startsWithCI "/Game".data p.data && !startsWithCI "/Engine".data p.data then
    ⟨"/Game".data ++ p.data⟩
  else p

/-- The unchanged-slot restore loop of `GenerateImport`: a slot whose index
is at or beyond the mesh's material count is recorded as a warning and
skipped; otherwise the material at the fixed-up path is loaded and, when
found, assigned at the slot index.  Returns the final material array and
the warned slot indices. -/
def restoreUnchangedMats (load : String → Option String) :
    List MaterialSlot → List (Option String) → List (Option String) × List Nat
  | [], mats => (mats, [])
  | s :: rest, mats =>
    if mats.length ≤ s.idx then
      let out := restoreUnchangedMats load rest mats
      (out.1, s.idx :: out.2)
    else
      match load (fixupMaterialPath s.internalPath) with
      | some matVal => restoreUnchangedMats load rest (mats.set s.idx (some matVal))
      | none => restoreUnchangedMats load rest mats

/-- The material-changeset step of `GenerateImport` for one record: the
material count comes from the cast (zero when neither cast succeeds, in
which case every unchanged slot is out of bounds and warned). -/
def applyMaterialRestore (load : String → Option String) (item : ExportAsset) :
    ImportedAsset → ImportedAsset × List Nat
  | .staticMesh mats =>
    let out := restoreUnchangedMats load item.materialChangeset.unchanged mats
    (.staticMesh out.1, out.2)
  | .skeletalMesh morphs mats =>
    let out := restoreUnchangedMats load item.materialChangeset.unchanged mats
    (.skeletalMesh morphs out.1, out.2)
  | .other =>
    (.other, (restoreUnchangedMats load item.materialChangeset.unchanged []).2)

/-- Engine environment of the import pass: the import task (none = failed)
and material loading by path. -/
structure ImportEnv where
  importAsset : String → ExportAsset → Option ImportedAsset
  loadMaterial : String → Option String

/-- Outcome of the import loop: the records whose loop body ran, the
post-processed assets with their warning lists, and the success flag. -/
structure ImportOutcome where
  processed : List ExportAsset
  results : List (ImportedAsset × List Nat)
  ok : Bool
deriving DecidableEq

/-- The per-record loop of `GenerateImport`: a failed import task returns
immediately (`if (!bIsSuccessful) return;`); a successful one is followed
by the morph and material restore steps. -/
def generateImportLoop (env : ImportEnv) : List ExportAsset → ImportOutcome
  | [] => ⟨[], [], true⟩
  | item :: rest =>
    match env.importAsset (importPackageNameOf item) item with
    | none => ⟨[item], [], false⟩
    | some asset =>
      let asset1 := applyMorphRestore item asset
      let ar := applyMaterialRestore env.loadMaterial item asset1
      let out := generateImportLoop env rest
      ⟨item :: out.processed, ar :: out.results, out.ok⟩

/-- `GenerateImport`: read the manifest (aborting on a read failure), then
run the record loop. -/
def generateImport (env : ImportEnv) (readResult : Option BridgeExport) :
    ImportOutcome :=
  match readResult with
  | none => ⟨[], [], false⟩
  | some manifest => generateImportLoop env manifest.objects

lemma generateExportLoop_all_dirs_ok (env : ExportEnv)
    (items : List ExportAsset)
    (h : ∀ i ∈ items, env.dirExists (pathDirname i.exportLocation) = true ∨
      env.makeDirOk (pathDirname i.exportLocation) = true) :
    generateExportLoop env items =
      ⟨items, items.filter (wouldExport env), true⟩ := by
  induction items with
  | nil => rfl
  | cons item rest ih =>
    have hdir := h item (List.mem_cons_self _ _)
    have hcond : (!env.dirExists (pathDirname item.exportLocation) &&
        !env.makeDirOk (pathDirname item.exportLocation)) = false := by
      rcases hdir with h1 | h1 <;> simp [h1]
    unfold generateExportLoop
    rw [if_neg (by simp [hcond])]
    rw [ih (fun i hi => h i (List.mem_cons_of_mem _ hi))]
    simp [List.filter_cons]

lemma generateExportLoop_dir_fail (env : ExportEnv)
    (pre : List ExportAsset) (bad : ExportAsset) (post : List ExportAsset)
    (hpre : ∀ i ∈ pre, env.dirExists (pathDirname i.exportLocation) = true ∨
      env.makeDirOk (pathDirname i.exportLocation) = true)
    (h1 : env.dirExists (pathDirname bad.exportLocation) = false)
    (h2 : env.makeDirOk (pathDirname bad.exportLocation) = false) :
    generateExportLoop env (pre ++ bad :: post) =
      ⟨pre ++ [bad], pre.filter (wouldExport env), false⟩ := by
  induction pre with
  | nil =>
    show generateExportLoop env (bad :: post) = _
    unfold generateExportLoop
    rw [if_pos (by simp [h1, h2])]
    rfl
  | cons item rest ih =>
    have hdir := hpre item (List.mem_cons_self _ _)
    have hcond : (!env.dirExists (pathDirname item.exportLocation) &&
        !env.makeDirOk (pathDirname item.exportLocation)) = false := by
      rcases hdir with hd | hd <;> simp [hd]
    show generateExportLoop env (item :: (rest ++ bad :: post)) = _
    unfold generateExportLoop
    rw [if_neg (by simp [hcond])]
    rw [ih (fun i hi => hpre i (List.mem_cons_of_mem _ hi))]
    simp [List.filter_cons]

lemma generateImportLoop_fail_first (env : ImportEnv)
    (pre : List ExportAsset) (bad : ExportAsset) (post : List ExportAsset)
    (hpre : ∀ i ∈ pre, (env.importAsset (importPackageNameOf i) i).isSome = true)
    (hbad : env.importAsset (importPackageNameOf bad) bad = none) :
    (generateImportLoop env (pre ++ bad :: post)).processed = pre ++ [bad] ∧
      (generateImportLoop env (pre ++ bad :: post)).ok = false := by
  induction pre with
  | nil =>
    have hstep : generateImportLoop env ([] ++ bad :: post) =
        ⟨[bad], [], false⟩ := by
      show generateImportLoop env (bad :: post) = _
      unfold generateImportLoop
      rw [hbad]
    rw [hstep]
    exact ⟨rfl, rfl⟩
  | cons item rest ih =>
    have hit := hpre item (List.mem_cons_self _ _)
    obtain ⟨a, ha⟩ := Option.isSome_iff_exists.mp hit
    have ihs := ih (fun i hi => hpre i (List.mem_cons_of_mem _ hi))
    rw [List.cons_append]
    constructor
    · show (generateImportLoop env (item :: (rest ++ bad :: post))).processed
        = (item :: rest) ++ [bad]
      simp only [generateImportLoop, ha]
      simp [ihs.1]
    · show (generateImportLoop env (item :: (rest ++ bad :: post))).ok = false
      simp only [generateImportLoop, ha]
      exact ihs.2

/-- C3, claim as stated, refuted at a concrete input: in the export pass a
record whose export task fails is skipped and the remaining records are
still processed (and still land in the manifest), so a failure at one
record does not abort the pass. -/
theorem export_pass_not_fail_fast :
    (generateExport
        ⟨fun _ => true, fun _ => true, fun e => e.shortName == "B", true⟩
        [{ shortName := "A", exportLocation := "/bridge/A.glb",
           modelPtr := some ⟨1, "/Game/A.A", .staticMesh []⟩ },
         { shortName := "B", exportLocation := "/bridge/B.glb",
           modelPtr := some ⟨2, "/Game/B.B", .staticMesh []⟩ }]).processed =
      [{ shortName := "A", exportLocation := "/bridge/A.glb",
         modelPtr := some ⟨1, "/Game/A.A", .staticMesh []⟩ },
       { shortName := "B", exportLocation := "/bridge/B.glb",
         modelPtr := some ⟨2, "/Game/B.B", .staticMesh []⟩ }] ∧
    (ExportEnv.runExportOk
        ⟨fun _ => true, fun _ => true, fun e => e.shortName == "B", true⟩
        { shortName := "A", exportLocation := "/bridge/A.glb",
          modelPtr := some ⟨1, "/Game/A.A", .staticMesh []⟩ } = false) ∧
    castsToMesh
        { shortName := "A", exportLocation := "/bridge/A.glb",
          modelPtr := some ⟨1, "/Game/A.A", .staticMesh []⟩ } = true ∧
    (generateExport
        ⟨fun _ => true, fun _ => true, fun e => e.shortName == "B", true⟩
        [{ shortName := "A", exportLocation := "/bridge/A.glb",
           modelPtr := some ⟨1, "/Game/A.A", .staticMesh []⟩ },
         { shortName := "B", exportLocation := "/bridge/B.glb",
           modelPtr := some ⟨2, "/Game/B.B", .staticMesh []⟩ }]).manifest =
      some ⟨"UnrealExport",
        [{ shortName := "B", exportLocation := "/bridge/B.glb",
           modelPtr := some ⟨2, "/Game/B.B", .staticMesh []⟩ }]⟩ := by
  refine ⟨rfl, rfl, rfl, rfl⟩

/-- C3 (amended): the import pass is fail-fast at record granularity — a
failed record is the last one processed.  In the export pass only a
directory-creation failure aborts; a record whose export task fails is
skipped (omitted from the manifest) while every remaining record is still
processed. -/
theorem item_failure_handling_amended :
    (∀ (env : ImportEnv) (pre : List ExportAsset) (bad : ExportAsset)
        (post : List ExportAsset),
      (∀ i ∈ pre, (env.importAsset (importPackageNameOf i) i).isSome = true) →
      env.importAsset (importPackageNameOf bad) bad = none →
      (generateImportLoop env (pre ++ bad :: post)).processed = pre ++ [bad] ∧
        (generateImportLoop env (pre ++ bad :: post)).ok = false) ∧
    (∀ (env : ExportEnv) (items : List ExportAsset),
      (∀ i ∈ items, env.dirExists (pathDirname i.exportLocation) = true ∨
        env.makeDirOk (pathDirname i.exportLocation) = true) →
      (generateExport env items).processed = items ∧
        (generateExport env items).manifest =
          some ⟨"UnrealExport", items.filter (wouldExport env)⟩) ∧
    (∀ (env : ExportEnv) (pre : List ExportAsset) (bad : ExportAsset)
        (post : List ExportAsset),
      (∀ i ∈ pre, env.dirExists (pathDirname i.exportLocation) = true ∨
        env.makeDirOk (pathDirname i.exportLocation) = true) →
      env.dirExists (pathDirname bad.exportLocation) = false →
      env.makeDirOk (pathDirname bad.exportLocation) = false →
      (generateExport env (pre ++ bad :: post)).processed = pre ++ [bad] ∧
        (generateExport env (pre ++ bad :: post)).ok = false) := by
  refine ⟨generateImportLoop_fail_first, ?_, ?_⟩
  · intro env items h
    unfold generateExport
    rw [generateExportLoop_all_dirs_ok env items h]
    exact ⟨rfl, rfl⟩
  · intro env pre bad post hpre h1 h2
    unfold generateExport
    rw [generateExportLoop_dir_fail env pre bad post hpre h1 h2]
    exact ⟨rfl, rfl⟩

/-- Witness for the amended C3: with an import environment whose import
task always fails, the first record is the only one processed. -/
theorem item_failure_handling_amended_witness :
    (generateImportLoop ⟨fun _ _ => none, fun _ => none⟩
        [{ shortName := "A" }, { shortName := "B" }]).processed =
      [{ shortName := "A" }] := by
  have h := (item_failure_handling_amended.1 ⟨fun _ _ => none, fun _ => none⟩
    [] { shortName := "A" } [{ shortName := "B" }]
    (by intro i hi; simp at hi) rfl).1
  simpa using h

end AssetsBridge

namespace AssetsBridge

/-!
Properties of the material-restore loop (claim C4) and the morph-restore
loop (claims C5 and C10).
-/
lemma restoreUnchangedMats_length (load : String → Option String) :
    ∀ (slots : List MaterialSlot) (mats : List (Option String)),
      ((restoreUnchangedMats load slots mats).1).length = mats.length
  | [], _ => rfl
  | s :: rest, mats => by
    unfold restoreUnchangedMats
    by_cases h : mats.length ≤ s.idx
    · rw [if_pos h]
      show ((restoreUnchangedMats load rest mats).1).length = mats.length
      exact restoreUnchangedMats_length load rest mats
    · rw [if_neg h]
      cases hl : load (fixupMaterialPath s.internalPath) with
      | some mv =>
        show ((restoreUnchangedMats load rest
          (mats.set s.idx (some mv))).1).length = mats.length
        rw [restoreUnchangedMats_length load rest (mats.set s.idx (some mv))]
        exact List.length_set mats s.idx (some mv)
      | none =>
        show ((restoreUnchangedMats load rest mats).1).length = mats.length
        exact restoreUnchangedMats_length load rest mats

lemma restoreUnchangedMats_preserve (load : String → Option String) :
    ∀ (slots : List MaterialSlot) (mats : List (Option String)) (i : Nat),
      (∀ t ∈ slots, t.idx ≠ i) →
      ((restoreUnchangedMats load slots mats).1)[i]? = mats[i]?
  | [], _, _, _ => rfl
  | s :: rest, mats, i, h => by
    unfold restoreUnchangedMats
    by_cases hle : mats.length ≤ s.idx
    · rw [if_pos hle]
      show ((restoreUnchangedMats load rest mats).1)[i]? = mats[i]?
      exact restoreUnchangedMats_preserve load rest mats i
        (fun t ht => h t (List.mem_cons_of_mem _ ht))
    · rw [if_neg hle]
      cases hl : load (fixupMaterialPath s.internalPath) with
      | some mv =>
        show ((restoreUnchangedMats load rest
          (mats.set s.idx (some mv))).1)[i]? = mats[i]?
        rw [restoreUnchangedMats_preserve load rest (mats.set s.idx (some mv)) i
          (fun t ht => h t (List.mem_cons_of_mem _ ht))]
        exact List.getElem?_set_ne (h s (List.mem_cons_self _ _))
      | none =>
        show ((restoreUnchangedMats load rest mats).1)[i]? = mats[i]?
        exact restoreUnchangedMats_preserve load rest mats i
          (fun t ht => h t (List.mem_cons_of_mem _ ht))

lemma restoreUnchangedMats_warns (load : String → Option String) :
    ∀ (slots : List MaterialSlot) (mats : List (Option String)),
      ∀ s ∈ slots, mats.length ≤ s.idx →
        s.idx ∈ (restoreUnchangedMats load slots mats).2
  | [], _ => by intro s hs; simp at hs
  | t :: rest, mats => by
    intro s hs hoob
    unfold restoreUnchangedMats
    rcases List.mem_cons.mp hs with rfl | hmem
    · rw [if_pos hoob]
      show s.idx ∈ s.idx :: (restoreUnchangedMats load rest mats).2
      exact List.mem_cons_self _ _
    · by_cases hle : mats.length ≤ t.idx
      · rw [if_pos hle]
        show s.idx ∈ t.idx :: (restoreUnchangedMats load rest mats).2
        exact List.mem_cons_of_mem _
          (restoreUnchangedMats_warns load rest mats s hmem hoob)
      · rw [if_neg hle]
        cases hl : load (fixupMaterialPath t.internalPath) with
        | some mv =>
          show s.idx ∈ (restoreUnchangedMats load rest
            (mats.set t.idx (some mv))).2
          refine restoreUnchangedMats_warns load rest _ s hmem ?_
          rw [List.length_set]
          exact hoob
        | none =>
          show s.idx ∈ (restoreUnchangedMats load rest mats).2
          exact restoreUnchangedMats_warns load rest mats s hmem hoob

lemma restoreUnchangedMats_restores (load : String → Option String) :
    ∀ (slots : List MaterialSlot) (mats : List (Option String)),
      slots.Pairwise (fun a b => a.idx ≠ b.idx) →
      ∀ s ∈ slots, s.idx < mats.length →
        ∀ m, load (fixupMaterialPath s.internalPath) = some m →
          ((restoreUnchangedMats load slots mats).1)[s.idx]? = some (some m)
  | [], _ => by intro _ s hs; simp at hs
  | t :: rest, mats => by
    intro hdisj s hs hlt m hm
    obtain ⟨hhead, htail⟩ := List.pairwise_cons.mp hdisj
    unfold restoreUnchangedMats
    rcases List.mem_cons.mp hs with rfl | hmem
    · rw [if_neg (by omega)]
      rw [hm]
      show ((restoreUnchangedMats load rest
        (mats.set s.idx (some m))).1)[s.idx]? = some (some m)
      rw [restoreUnchangedMats_preserve load rest (mats.set s.idx (some m))
        s.idx (fun u hu => Ne.symm (hhead u hu))]
      exact List.getElem?_set_self hlt
    · by_cases hle : mats.length ≤ t.idx
      · rw [if_pos hle]
        show ((restoreUnchangedMats load rest mats).1)[s.idx]? = some (some m)
        exact restoreUnchangedMats_restores load rest mats htail s hmem hlt m hm
      · rw [if_neg hle]
        cases hl : load (fixupMaterialPath t.internalPath) with
        | some mv =>
          show ((restoreUnchangedMats load rest
            (mats.set t.idx (some mv))).1)[s.idx]? = some (some m)
          refine restoreUnchangedMats_restores load rest _ htail s hmem ?_ m hm
          rw [List.length_set]
          exact hlt
        | none =>
          show ((restoreUnchangedMats load rest mats).1)[s.idx]? = some (some m)
          exact restoreUnchangedMats_restores load rest mats htail s hmem hlt m hm

/-- C4: the unchanged-slot restore of `GenerateImport` respects bounds.
For any changeset with pairwise-distinct slot indices: the material array
keeps its length, every out-of-bounds slot is warned yet the loop continues
rather than failing or aborting, and every in-bounds slot whose material
path loads successfully is restored at its index. -/
theorem material_restore_respects_bounds (load : String → Option String)
    (slots : List MaterialSlot) (mats : List (Option String))
    (hdisj : slots.Pairwise (fun a b => a.idx ≠ b.idx)) :
    ((restoreUnchangedMats load slots mats).1).length = mats.length ∧
    (∀ s ∈ slots, mats.length ≤ s.idx →
      s.idx ∈ (restoreUnchangedMats load slots mats).2) ∧
    (∀ s ∈ slots, s.idx < mats.length →
      ∀ m, load (fixupMaterialPath s.internalPath) = some m →
        ((restoreUnchangedMats load slots mats).1)[s.idx]? = some (some m)) :=
  ⟨restoreUnchangedMats_length load slots mats,
   restoreUnchangedMats_warns load slots mats,
   restoreUnchangedMats_restores load slots mats hdisj⟩

/-- Witness for C4, mirroring the spec's example: a changeset with an
out-of-bounds slot (index 5) on a 3-slot mesh warns about slot 5 and still
restores the valid slot 0. -/
theorem material_restore_respects_bounds_witness :
    ((restoreUnchangedMats (fun p => some p)
        [{ idx := 5, internalPath := "/Game/M5" },
         { idx := 0, internalPath := "/Game/M0" }]
        [none, none, none]).1).length = 3 ∧
    5 ∈ (restoreUnchangedMats (fun p => some p)
        [{ idx := 5, internalPath := "/Game/M5" },
         { idx := 0, internalPath := "/Game/M0" }]
        [none, none, none]).2 ∧
    ((restoreUnchangedMats (fun p => some p)
        [{ idx := 5, internalPath := "/Game/M5" },
         { idx := 0, internalPath := "/Game/M0" }]
        [none, none, none]).1)[0]? = some (some "/Game/M0") := by
  have h := material_restore_respects_bounds (fun p => some p)
    [{ idx := 5, internalPath := "/Game/M5" },
     { idx := 0, internalPath := "/Game/M0" }]
    [none, none, none]
    (by simp [List.pairwise_cons])
  refine ⟨h.1, ?_, ?_⟩
  · exact h.2.1 { idx := 5, internalPath := "/Game/M5" }
      (List.mem_cons_self _ _) (by decide)
  · exact h.2.2 { idx := 0, internalPath := "/Game/M0" }
      (List.mem_cons_of_mem _ (List.mem_cons_self _ _)) (by decide)
      "/Game/M0" rfl

lemma restoreMorphNames_length :
    ∀ (rs : List String) (ms : List (Option String)),
      (restoreMorphNames rs ms).length = ms.length
  | [], [] => rfl
  | [], _ :: _ => rfl
  | _ :: _, [] => rfl
  | r :: rs, m :: ms => by
    show ((match m with
        | some _ => some r
        | none => none) :: restoreMorphNames rs ms).length = ms.length + 1
    simp [restoreMorphNames_length rs ms]

lemma restoreMorphNames_getElem_ge :
    ∀ (rs : List String) (ms : List (Option String)) (i : Nat),
      min rs.length ms.length ≤ i → (restoreMorphNames rs ms)[i]? = ms[i]?
  | [], [], _, _ => rfl
  | [], _ :: _, _, _ => rfl
  | _ :: _, [], _, _ => rfl
  | r :: rs, m :: ms, 0, h => by
    rw [List.length_cons, List.length_cons, Nat.succ_min_succ] at h
    omega
  | r :: rs, m :: ms, i + 1, h => by
    show ((match m with
        | some _ => some r
        | none => none) :: restoreMorphNames rs ms)[i + 1]? = (m :: ms)[i + 1]?
    rw [List.getElem?_cons_succ, List.getElem?_cons_succ]
    refine restoreMorphNames_getElem_ge rs ms i ?_
    rw [List.length_cons, List.length_cons, Nat.succ_min_succ] at h
    omega

lemma restoreMorphNames_getElem_lt :
    ∀ (rs : List String) (ms : List (Option String)) (i : Nat) (r : String)
      (mo : Option String), rs[i]? = some r → ms[i]? = some mo →
      (restoreMorphNames rs ms)[i]? = some (mo.map (fun _ => r))
  | [], _, i, _, _, hr, _ => by simp at hr
  | _ :: _, [], i, _, _, _, hm => by simp at hm
  | r0 :: rs, m :: ms, 0, r, mo, hr, hm => by
    rw [List.getElem?_cons_zero, Option.some_inj] at hr hm
    subst hr
    subst hm
    cases m <;> simp [restoreMorphNames]
  | r0 :: rs, m :: ms, i + 1, r, mo, hr, hm => by
    rw [List.getElem?_cons_succ] at hr hm
    show ((match m with
        | some _ => some r0
        | none => none) :: restoreMorphNames rs ms)[i + 1]? = _
    rw [List.getElem?_cons_succ]
    exact restoreMorphNames_getElem_lt rs ms i r mo hr hm

lemma captureMorphNames_all_some :
    ∀ (ms : List (Option String)), (∀ x ∈ ms, x.isSome = true) →
      ∀ (i : Nat) (n : String), ms[i]? = some (some n) →
        (captureMorphNames ms)[i]? = some n
  | [], _, i, n, hi => by simp at hi
  | m :: ms, h, i, n, hi => by
    obtain ⟨v, rfl⟩ :=
      Option.isSome_iff_exists.mp (h m (List.mem_cons_self _ _))
    show (v :: captureMorphNames ms)[i]? = some n
    cases i with
    | zero =>
      rw [List.getElem?_cons_zero, Option.some_inj] at hi
      rw [List.getElem?_cons_zero]
      exact hi
    | succ i =>
      rw [List.getElem?_cons_succ] at hi
      rw [List.getElem?_cons_succ]
      exact captureMorphNames_all_some ms
        (fun x hx => h x (List.mem_cons_of_mem _ hx)) i n hi

lemma strEqCI_refl (s : List Char) : strEqCI s s = true := by
  induction s with
  | nil => rfl
  | cons a as ih => simp [strEqCI, charEqCI_refl, ih]

/-- C5: morph-target name order is preserved across the round trip.  The
export side captures each (non-null) morph target's name in array order;
on import, for a record whose kind is SkeletalMesh with a non-empty
recorded list, the restore step applies the i-th recorded name to the i-th
(non-null) morph target of the re-imported mesh. -/
theorem morph_target_order_round_trip
    (meshMorphs impMorphs mats : List (Option String)) (item : ExportAsset)
    (hType : item.stringType = "SkeletalMesh")
    (hRec : item.morphTargets = captureMorphNames meshMorphs)
    (hNe : captureMorphNames meshMorphs ≠ []) :
    (∀ (i : Nat) (n : String), meshMorphs[i]? = some (some n) →
      (∀ x ∈ meshMorphs, x.isSome = true) →
      (captureMorphNames meshMorphs)[i]? = some n) ∧
    applyMorphRestore item (.skeletalMesh impMorphs mats) =
      .skeletalMesh
        (restoreMorphNames (captureMorphNames meshMorphs) impMorphs) mats ∧
    (∀ (i : Nat) (r mo : String),
      (captureMorphNames meshMorphs)[i]? = some r →
      impMorphs[i]? = some (some mo) →
      (restoreMorphNames (captureMorphNames meshMorphs) impMorphs)[i]?
        = some (some r)) := by
  refine ⟨fun i n hi hall => captureMorphNames_all_some meshMorphs hall i n hi,
    ?_, fun i r mo hr hm => by
      simpa using restoreMorphNames_getElem_lt (captureMorphNames meshMorphs)
        impMorphs i r (some mo) hr hm⟩
  unfold applyMorphRestore
  have hempty : (item.morphTargets).isEmpty = false := by
    rw [hRec]
    cases hcap : captureMorphNames meshMorphs with
    | nil => exact absurd hcap hNe
    | cons a l => rfl
  show (if (strEqCI item.stringType.data "SkeletalMesh".data &&
        !item.morphTargets.isEmpty) = true then
      ImportedAsset.skeletalMesh
        (restoreMorphNames item.morphTargets impMorphs) mats
    else ImportedAsset.skeletalMesh impMorphs mats) =
      ImportedAsset.skeletalMesh
        (restoreMorphNames (captureMorphNames meshMorphs) impMorphs) mats
  rw [if_pos (by rw [hType, hempty]; simp [strEqCI_refl])]
  rw [hRec]

/-- Witness for C5 at a concrete two-morph skeletal record. -/
theorem morph_target_order_round_trip_witness :
    applyMorphRestore
        { stringType := "SkeletalMesh", morphTargets := ["Smile", "Blink"] }
        (.skeletalMesh [some "morph0", some "morph1"] []) =
      .skeletalMesh [some "Smile", some "Blink"] [] := by
  have h := (morph_target_order_round_trip
    [some "Smile", some "Blink"] [some "morph0", some "morph1"] []
    { stringType := "SkeletalMesh", morphTargets := ["Smile", "Blink"] }
    rfl (by decide) (by decide)).2.1
  exact h.trans (by decide)

/-- C10: morph restore is count-bounded.  The restored array has the same
length as the imported one, entries at or beyond `min(recorded, imported)`
are unchanged, and each entry below that bound carries the recorded name
(for a non-null imported target) or stays null — so no out-of-range index
is ever touched and a count mismatch produces no error. -/
theorem morph_restore_count_bounded (rs : List String)
    (ms : List (Option String)) :
    (restoreMorphNames rs ms).length = ms.length ∧
    (∀ i : Nat, min rs.length ms.length ≤ i →
      (restoreMorphNames rs ms)[i]? = ms[i]?) ∧
    (∀ (i : Nat) (r : String) (mo : Option String),
      rs[i]? = some r → ms[i]? = some mo →
      (restoreMorphNames rs ms)[i]? = some (mo.map (fun _ => r))) :=
  ⟨restoreMorphNames_length rs ms,
   fun i h => restoreMorphNames_getElem_ge rs ms i h,
   fun i r mo hr hm => restoreMorphNames_getElem_lt rs ms i r mo hr hm⟩

/-- Witness for C10: one recorded name against three imported targets
renames only the first target and leaves the rest untouched. -/
theorem morph_restore_count_bounded_witness :
    (restoreMorphNames ["A"] [some "x", none, some "y"]).length = 3 ∧
    (restoreMorphNames ["A"] [some "x", none, some "y"])[1]? = some none ∧
    (restoreMorphNames ["A"] [some "x", none, some "y"])[0]?
      = some (some "A") := by
  have h := morph_restore_count_bounded ["A"] [some "x", none, some "y"]
  refine ⟨h.1, ?_, ?_⟩
  · have h2 := h.2.1 1 (by decide)
    rw [h2]
    decide
  · have h3 := h.2.2 0 "A" (some "x") rfl rfl
    rw [h3]
    decide

end AssetsBridge

namespace AssetsBridge

/-!
Manifest decoding (claim C6) and the retarget deletion step (claim C7).

The repository's `AssetsBridgeTools.h` (USTRUCT declarations backing the
JSON codec) and the implementation of
`UBridgeManager::RetargetSkeletalMeshToSkeleton` are not under `src/`;
only `ReadBridgeExportFile` (which delegates to the engine's
JSON-to-USTRUCT conversion) and the retarget declaration with its
documentation are.  The missing parts are modelled from the spec below,
with doc comments marking each spec-modelled definition.
-/

/-- Modelled from the spec: the structured text (JSON) value shape consumed
by the manifest codec (§4.2, §6); the engine's JSON representation is not
part of the repository source. -/
inductive JValue where
  | jnull
  | jbool (b : Bool)
  | jnum (n : Int)
  | jstr (s : String)
  | jarr (xs : List JValue)
  | jobj (fields : List (String × JValue))

/-- First binding of a key in a JSON object's field list. -/
def lookupField (fields : List (String × JValue)) (k : String) : Option JValue :=
  match fields with
  | [] => none
  | (k', v) :: rest => if k' = k then some v else lookupField rest k

/-- The record kind tag (§3): {StaticMesh, SkeletalMesh, Unknown}. -/
inductive AssetKind where
  | staticMesh
  | skeletalMesh
  | unknown
deriving DecidableEq

/-- Modelled from the spec: kind-tag decoding — a tag that is not one of
the known tags decodes as Unknown rather than failing (§4.2). -/
def decodeKind (s : String) : AssetKind :=
  if s = "StaticMesh" then .staticMesh
  else if s = "SkeletalMesh" then .skeletalMesh
  else .unknown

/-- Decode failure for a structurally invalid document (§4.2). -/
inductive DecodeError where
  | malformed (which : String)
deriving DecidableEq

/-- Modelled from the spec: an ExportRecord as decoded from the manifest
(§3), restricted to the scalar fields and the morph-name list. -/
structure SpecRecord where
  identity : String := ""
  displayName : String := ""
  kind : AssetKind := .unknown
  internalPath : String := ""
  fileLocation : String := ""
  skeletonReference : String := ""
  morphTargetNames : List String := []
deriving DecidableEq

/-- Modelled from the spec: the manifest `{ operation, objects }` (§3). -/
structure SpecManifest where
  operation : String := ""
  objects : List SpecRecord := []
deriving DecidableEq

/-- Read a string field: absent fields default to the empty string; a
present field of the wrong shape is a malformed document. -/
def getStrField (fields : List (String × JValue)) (k : String) :
    Except DecodeError String :=
  match lookupField fields k with
  | none => .ok ""
  | some (.jstr s) => .ok s
  | some _ => .error (.malformed k)

/-- Decode an array of strings. -/
def decodeStrList (k : String) : List JValue → Except DecodeError (List String)
  | [] => .ok []
  | .jstr s :: rest => do
    let tail ← decodeStrList k rest
    pure (s :: tail)
  | _ :: _ => .error (.malformed k)

/-- Read a string-list field, defaulting to the empty list when absent. -/
def getStrListField (fields : List (String × JValue)) (k : String) :
    Except DecodeError (List String) :=
  match lookupField fields k with
  | none => .ok []
  | some (.jarr xs) => decodeStrList k xs
  | some _ => .error (.malformed k)

/-- Modelled from the spec: decode one manifest record.  The kind tag is
read as a plain string and mapped through `decodeKind`; decoding can only
fail on a structurally invalid field, never on the tag's value. -/
def decodeRecordFields (fields : List (String × JValue)) :
    Except DecodeError SpecRecord := do
  let identity ← getStrField fields "identity"
  let displayName ← getStrField fields "displayName"
  let kindTag ← getStrField fields "kind"
  let internalPath ← getStrField fields "internalPath"
  let fileLocation ← getStrField fields "fileLocation"
  let skeletonReference ← getStrField fields "skeletonReference"
  let morphTargetNames ← getStrListField fields "morphTargetNames"
  pure { identity, displayName, kind := decodeKind kindTag, internalPath,
         fileLocation, skeletonReference, morphTargetNames }

def decodeRecord : JValue → Except DecodeError SpecRecord
  | .jobj fields => decodeRecordFields fields
  | _ => .error (.malformed "record")

/-- Decode the records array. -/
def decodeRecords : List JValue → Except DecodeError (List SpecRecord)
  | [] => .ok []
  | x :: rest => do
    let r ← decodeRecord x
    let tail ← decodeRecords rest
    pure (r :: tail)

/-- Modelled from the spec: decode a manifest — validates that the document
is an object and that `objects`, when present, is an array; an absent
`objects` defaults to the empty list (§4.2). -/
def decodeManifestFields (fields : List (String × JValue)) :
    Except DecodeError SpecManifest := do
  let op ← getStrField fields "Operation"
  match lookupField fields "Objects" with
  | none => pure { operation := op, objects := [] }
  | some (.jarr xs) => do
    let objs ← decodeRecords xs
    pure { operation := op, objects := objs }
  | some _ => .error (.malformed "Objects")

def decodeManifest : JValue → Except DecodeError SpecManifest
  | .jobj fields => decodeManifestFields fields
  | _ => .error (.malformed "manifest")

/-- Success test for a decode result. -/
def exceptIsOk : Except DecodeError α → Bool
  | .ok _ => true
  | .error _ => false

/-- A string field is absent or a string. -/
def fieldOkStr (fields : List (String × JValue)) (k : String) : Bool :=
  match lookupField fields k with
  | none => true
  | some (.jstr _) => true
  | some _ => false

/-- A string-list field is absent or an array of strings. -/
def fieldOkStrList (fields : List (String × JValue)) (k : String) : Bool :=
  match lookupField fields k with
  | none => true
  | some (.jarr xs) => xs.all fun x =>
      match x with
      | JValue.jstr _ => true
      | _ => false
  | some _ => false

/-- Structural validity of a record object: every known field is absent or
of the right shape.  No constraint is placed on the kind tag's value. -/
def recordWellTyped (fields : List (String × JValue)) : Bool :=
  fieldOkStr fields "identity" &&
    (fieldOkStr fields "displayName" &&
      (fieldOkStr fields "kind" &&
        (fieldOkStr fields "internalPath" &&
          (fieldOkStr fields "fileLocation" &&
            (fieldOkStr fields "skeletonReference" &&
              fieldOkStrList fields "morphTargetNames")))))

lemma except_bind_ok (a : α) (f : α → Except DecodeError β) :
    (Except.ok a >>= f) = f a := rfl

lemma except_bind_error (e : DecodeError) (f : α → Except DecodeError β) :
    ((Except.error e : Except DecodeError α) >>= f)
      = (Except.error e : Except DecodeError β) := rfl

lemma getStrField_ok_of_fieldOk (fields : List (String × JValue)) (k : String)
    (h : fieldOkStr fields k = true) : ∃ s, getStrField fields k = .ok s := by
  unfold fieldOkStr at h
  unfold getStrField
  cases hl : lookupField fields k with
  | none => exact ⟨"", rfl⟩
  | some v =>
    rw [hl] at h
    cases v with
    | jstr s => exact ⟨s, rfl⟩
    | jnull => simp at h
    | jbool b => simp at h
    | jnum n => simp at h
    | jarr xs => simp at h
    | jobj fs => simp at h

lemma decodeStrList_ok (k : String) : ∀ xs : List JValue,
    (xs.all fun x =>
      match x with
      | JValue.jstr _ => true
      | _ => false) = true →
    ∃ l, decodeStrList k xs = .ok l
  | [], _ => ⟨[], rfl⟩
  | JValue.jstr s :: rest, h => by
    obtain ⟨l, hl⟩ := decodeStrList_ok k rest (by
      rw [List.all_cons] at h
      exact (Bool.and_eq_true _ _).mp h |>.2)
    refine ⟨s :: l, ?_⟩
    show (decodeStrList k rest >>= fun tail => pure (s :: tail)) = .ok (s :: l)
    rw [hl]
    rfl
  | JValue.jnull :: rest, h => by rw [List.all_cons] at h; simp at h
  | JValue.jbool b :: rest, h => by rw [List.all_cons] at h; simp at h
  | JValue.jnum n :: rest, h => by rw [List.all_cons] at h; simp at h
  | JValue.jarr xs :: rest, h => by rw [List.all_cons] at h; simp at h
  | JValue.jobj fs :: rest, h => by rw [List.all_cons] at h; simp at h

lemma getStrListField_ok_of_fieldOk (fields : List (String × JValue))
    (k : String) (h : fieldOkStrList fields k = true) :
    ∃ l, getStrListField fields k = .ok l := by
  unfold fieldOkStrList at h
  unfold getStrListField
  cases hl : lookupField fields k with
  | none => exact ⟨[], rfl⟩
  | some v =>
    rw [hl] at h
    cases v with
    | jarr xs => exact decodeStrList_ok k xs h
    | jnull => simp at h
    | jbool b => simp at h
    | jnum n => simp at h
    | jstr s => simp at h
    | jobj fs => simp at h

/-- C6: manifest decoding tolerates unknown kinds.  A structurally valid
manifest with `Objects` absent decodes with an empty object list; a kind
tag outside the known tags decodes to Unknown; a structurally well-typed
record always decodes successfully, whatever its kind tag; and a decoded
record whose tag was unknown carries kind Unknown. -/
theorem manifest_decode_tolerates_unknown_kind :
    (∀ (fields : List (String × JValue)) (op : String),
      getStrField fields "Operation" = .ok op →
      lookupField fields "Objects" = none →
      decodeManifest (.jobj fields) = .ok { operation := op, objects := [] }) ∧
    (∀ tag : String, tag ≠ "StaticMesh" → tag ≠ "SkeletalMesh" →
      decodeKind tag = .unknown) ∧
    (∀ fields : List (String × JValue), recordWellTyped fields = true →
      exceptIsOk (decodeRecord (.jobj fields)) = true) ∧
    (∀ (fields : List (String × JValue)) (tag : String) (r : SpecRecord),
      lookupField fields "kind" = some (.jstr tag) →
      tag ≠ "StaticMesh" → tag ≠ "SkeletalMesh" →
      decodeRecord (.jobj fields) = .ok r → r.kind = .unknown) := by
  refine ⟨?_, ?_, ?_, ?_⟩
  · intro fields op hOp hNone
    have hm : decodeManifest (.jobj fields) = decodeManifestFields fields := rfl
    rw [hm]
    unfold decodeManifestFields
    rw [hOp, except_bind_ok, hNone]
    rfl
  · intro tag h1 h2
    unfold decodeKind
    rw [if_neg h1, if_neg h2]
  · intro fields h
    simp only [recordWellTyped, Bool.and_eq_true] at h
    obtain ⟨h1, h2, h3, h4, h5, h6, h7⟩ := h
    obtain ⟨s1, e1⟩ := getStrField_ok_of_fieldOk fields "identity" h1
    obtain ⟨s2, e2⟩ := getStrField_ok_of_fieldOk fields "displayName" h2
    obtain ⟨s3, e3⟩ := getStrField_ok_of_fieldOk fields "kind" h3
    obtain ⟨s4, e4⟩ := getStrField_ok_of_fieldOk fields "internalPath" h4
    obtain ⟨s5, e5⟩ := getStrField_ok_of_fieldOk fields "fileLocation" h5
    obtain ⟨s6, e6⟩ := getStrField_ok_of_fieldOk fields "skeletonReference" h6
    obtain ⟨l7, e7⟩ := getStrListField_ok_of_fieldOk fields "morphTargetNames" h7
    have hr0 : decodeRecord (.jobj fields) = decodeRecordFields fields := rfl
    rw [hr0]
    unfold decodeRecordFields
    rw [e1, except_bind_ok, e2, except_bind_ok, e3, except_bind_ok,
      e4, except_bind_ok, e5, except_bind_ok, e6, except_bind_ok,
      e7, except_bind_ok]
    rfl
  · intro fields tag r hk h1 h2 hok
    have hkf : getStrField fields "kind" = .ok tag := by
      unfold getStrField
      rw [hk]
    have hr0 : decodeRecord (.jobj fields) = decodeRecordFields fields := rfl
    rw [hr0] at hok
    unfold decodeRecordFields at hok
    cases e1 : getStrField fields "identity" with
    | error e => rw [e1, except_bind_error] at hok; simp at hok
    | ok s1 =>
    rw [e1, except_bind_ok] at hok
    cases e2 : getStrField fields "displayName" with
    | error e => rw [e2, except_bind_error] at hok; simp at hok
    | ok s2 =>
    rw [e2, except_bind_ok] at hok
    rw [hkf, except_bind_ok] at hok
    cases e4 : getStrField fields "internalPath" with
    | error e => rw [e4, except_bind_error] at hok; simp at hok
    | ok s4 =>
    rw [e4, except_bind_ok] at hok
    cases e5 : getStrField fields "fileLocation" with
    | error e => rw [e5, except_bind_error] at hok; simp at hok
    | ok s5 =>
    rw [e5, except_bind_ok] at hok
    cases e6 : getStrField fields "skeletonReference" with
    | error e => rw [e6, except_bind_error] at hok; simp at hok
    | ok s6 =>
    rw [e6, except_bind_ok] at hok
    cases e7 : getStrListField fields "morphTargetNames" with
    | error e => rw [e7, except_bind_error] at hok; simp at hok
    | ok l7 =>
    rw [e7, except_bind_ok] at hok
    have hr : r =
        { identity := s1
          displayName := s2
          kind := decodeKind tag
          internalPath := s4
          fileLocation := s5
          skeletonReference := s6
          morphTargetNames := l7 } := by
      have hok' := hok
      injection hok' with h
      exact h.symm
    rw [hr]
    show decodeKind tag = .unknown
    unfold decodeKind
    rw [if_neg h1, if_neg h2]

/-- Witness for C6: a one-record manifest whose record carries the unknown
kind tag `FancyFutureKind` decodes successfully, and a manifest without an
`Objects` field decodes with an empty list. -/
theorem manifest_decode_tolerates_unknown_kind_witness :
    decodeManifest (.jobj [("Operation", .jstr "BlenderExport")])
      = .ok { operation := "BlenderExport", objects := [] } ∧
    decodeKind "FancyFutureKind" = .unknown ∧
    exceptIsOk (decodeRecord (.jobj [("kind", .jstr "FancyFutureKind"),
      ("identity", .jstr "Cube")])) = true ∧
    (∀ r : SpecRecord,
      decodeRecord (.jobj [("kind", .jstr "FancyFutureKind"),
        ("identity", .jstr "Cube")]) = .ok r → r.kind = .unknown) := by
  refine ⟨?_, ?_, ?_, ?_⟩
  · exact manifest_decode_tolerates_unknown_kind.1
      [("Operation", .jstr "BlenderExport")] "BlenderExport" rfl rfl
  · exact manifest_decode_tolerates_unknown_kind.2.1 "FancyFutureKind"
      (by decide) (by decide)
  · exact manifest_decode_tolerates_unknown_kind.2.2.1
      [("kind", .jstr "FancyFutureKind"), ("identity", .jstr "Cube")] rfl
  · intro r hr
    exact manifest_decode_tolerates_unknown_kind.2.2.2
      [("kind", .jstr "FancyFutureKind"), ("identity", .jstr "Cube")]
      "FancyFutureKind" r rfl (by decide) (by decide) hr

/-- Modelled from the spec: the analysis result of
`AnalyzeSkeletalMeshImport` as declared in `BridgeManager.h`
(FSkeletonImportResult). -/
structure SkeletonImportResult where
  bNewSkeletonGenerated : Bool := false
  bNewPhysicsAssetGenerated : Bool := false
  intendedSkeletonPath : String := ""
  generatedSkeletonPath : String := ""
  generatedPhysicsAssetPath : String := ""
deriving DecidableEq

/-- Modelled from the spec: the deletion step of
`RetargetSkeletalMeshToSkeleton` (implementation not under `src/`;
modelled from the declaration's documentation and spec §4.5).  Deletion
runs only when the caller opts in, and a candidate asset handle is deleted
only when the analysis flagged it as generated and its resolved path
equals the exact recorded "generated" path. -/
def retargetDeletions (resolvePath : Nat → String) (r : SkeletonImportResult)
    (skelCandidate physCandidate : Option Nat)
    (bDeleteGeneratedAssets : Bool) : List Nat :=
  if !bDeleteGeneratedAssets then []
  else
    (match skelCandidate with
      | some h =>
        if r.bNewSkeletonGenerated &&
            (resolvePath h == r.generatedSkeletonPath) then [h] else []
      | none => []) ++
    (match physCandidate with
      | some h =>
        if r.bNewPhysicsAssetGenerated &&
            (resolvePath h == r.generatedPhysicsAssetPath) then [h] else []
      | none => [])

lemma retargetDeletions_sound (resolvePath : Nat → String)
    (r : SkeletonImportResult) (skel phys : Option Nat) (del : Bool) :
    ∀ h ∈ retargetDeletions resolvePath r skel phys del,
      resolvePath h = r.generatedSkeletonPath ∨
        resolvePath h = r.generatedPhysicsAssetPath := by
  intro h hmem
  unfold retargetDeletions at hmem
  by_cases hdel : (!del) = true
  · rw [if_pos hdel] at hmem
    simp at hmem
  · rw [if_neg hdel] at hmem
    rcases List.mem_append.mp hmem with hs | hp
    · left
      cases skel with
      | none => simp at hs
      | some h0 =>
        have hs' : h ∈ (if (r.bNewSkeletonGenerated &&
            (resolvePath h0 == r.generatedSkeletonPath)) = true
          then [h0] else []) := hs
        by_cases hc : (r.bNewSkeletonGenerated &&
            (resolvePath h0 == r.generatedSkeletonPath)) = true
        · rw [if_pos hc] at hs'
          rw [List.mem_singleton.mp hs']
          exact eq_of_beq ((Bool.and_eq_true _ _).mp hc).2
        · rw [if_neg hc] at hs'
          simp at hs'
    · right
      cases phys with
      | none => simp at hp
      | some h0 =>
        have hp' : h ∈ (if (r.bNewPhysicsAssetGenerated &&
            (resolvePath h0 == r.generatedPhysicsAssetPath)) = true
          then [h0] else []) := hp
        by_cases hc : (r.bNewPhysicsAssetGenerated &&
            (resolvePath h0 == r.generatedPhysicsAssetPath)) = true
        · rw [if_pos hc] at hp'
          rw [List.mem_singleton.mp hp']
          exact eq_of_beq ((Bool.and_eq_true _ _).mp hc).2
        · rw [if_neg hc] at hp'
          simp at hp'

/-- C7: safe deletion during skeleton retarget.  Every deleted asset's
resolved path equals one of the recorded "generated" paths, and a skeleton
candidate whose resolved path differs from the recorded generated skeleton
path is never deleted — even when the analysis reported
`bNewSkeletonGenerated = true` and deletion was opted in. -/
theorem retarget_safe_deletion (resolvePath : Nat → String)
    (r : SkeletonImportResult) (cand : Nat) (phys : Option Nat) (del : Bool)
    (_hGen : r.bNewSkeletonGenerated = true)
    (hskel : resolvePath cand ≠ r.generatedSkeletonPath)
    (hphys : resolvePath cand ≠ r.generatedPhysicsAssetPath) :
    cand ∉ retargetDeletions resolvePath r (some cand) phys del ∧
    ∀ h ∈ retargetDeletions resolvePath r (some cand) phys del,
      resolvePath h = r.generatedSkeletonPath ∨
        resolvePath h = r.generatedPhysicsAssetPath := by
  refine ⟨?_, retargetDeletions_sound resolvePath r (some cand) phys del⟩
  intro hmem
  rcases retargetDeletions_sound resolvePath r (some cand) phys del
    cand hmem with hc | hc
  · exact hskel hc
  · exact hphys hc

/-- Witness for C7: with `bNewSkeletonGenerated = true` and deletion opted
in, a skeleton whose resolved path differs from the recorded generated path
is not in the deletion list. -/
theorem retarget_safe_deletion_witness :
    2 ∉ retargetDeletions (fun n => if n == 1 then "/Game/H/H_Skeleton"
        else "/Game/Shared/HeroSkeleton")
      { bNewSkeletonGenerated := true,
        generatedSkeletonPath := "/Game/H/H_Skeleton",
        generatedPhysicsAssetPath := "/Game/H/H_PhysicsAsset" }
      (some 2) none true :=
  (retarget_safe_deletion
    (fun n => if n == 1 then "/Game/H/H_Skeleton"
      else "/Game/Shared/HeroSkeleton")
    { bNewSkeletonGenerated := true,
      generatedSkeletonPath := "/Game/H/H_Skeleton",
      generatedPhysicsAssetPath := "/Game/H/H_PhysicsAsset" }
    2 none true rfl (by decide) (by decide)).1

end AssetsBridge
